import Mathlib

/-!
Shallow embedding of the session-pool server in `src/src/pages/ChatPage.tsx`
(the node server half of the file, lines 905-1258): the session pool
(`getSession`, `updateSessionKey`, `releaseSession`, `cleanupSessions`) and the
WebSocket message handler that relays a stream of SDK events into wire
messages.

Modelling conventions:
* JavaScript `Map` objects are modelled as insertion-ordered association
  lists; `Map.set` replaces the value in place when the key is present and
  appends otherwise, `Map.delete` removes the key, and iteration follows
  insertion order, exactly as in JS.
* `PooledSession` objects are mutable and aliased by both `sessionPool`
  (key → object) and `sessionKeyMap` (object → key).  Object identity is
  modelled by a numeric `EntryId`; the object heap maps each id to its
  current field values.
* `Date.now()` is an ambient input: every operation that reads the clock
  takes an explicit `now : Nat` argument.
* `unstable_v2_createSession` / `prewarmSession`'s success or failure is an
  external input (`Option Fresh`): on success it supplies the identity of the
  new object and the generated placeholder id string.
* `session.close()` may throw; which session objects throw is the external
  input `closeFails : EntryId → Bool`.
-/

namespace AgentPool

abbrev EntryId := Nat

/-- Field values of a `PooledSession` object (the opaque `session` handle
itself carries no modelled state; its `close()` behaviour is the
`closeFails` input of `cleanupSessions`). -/
structure PooledSession where
  sessionId : String
  createdAt : Nat
  lastUsed : Nat
  inUse : Bool
deriving DecidableEq

/-- Association-list lookup: JS `Map.get` (first binding of the key). -/
def mapGet {α β : Type} [DecidableEq α] : List (α × β) → α → Option β
  | [], _ => none
  | p :: rest, k => if p.1 = k then some p.2 else mapGet rest k

/-- JS `Map.set`: update the existing binding in place, else append. -/
def mapSet {α β : Type} [DecidableEq α] : List (α × β) → α → β → List (α × β)
  | [], k, v => [(k, v)]
  | p :: rest, k, v => if p.1 = k then (k, v) :: rest else p :: mapSet rest k v

/-- JS `Map.delete`: remove the binding of the key. -/
def mapDelete {α β : Type} [DecidableEq α] : List (α × β) → α → List (α × β)
  | [], _ => []
  | p :: rest, k => if p.1 = k then mapDelete rest k else p :: mapDelete rest k

/-- In-place mutation of the object bound to a key (JS field assignment
through a reference). -/
def mapUpdate {α β : Type} [DecidableEq α] : List (α × β) → α → (β → β) → List (α × β)
  | [], _, _ => []
  | p :: rest, k, f => if p.1 = k then (p.1, f p.2) :: rest else p :: mapUpdate rest k f

/-- Whole state of the pool module: the object heap plus the two global maps
`sessionPool : Map<string, PooledSession>` and
`sessionKeyMap : Map<PooledSession, string>`. -/
structure PoolState where
  heap : List (EntryId × PooledSession)
  sessionPool : List (String × EntryId)
  sessionKeyMap : List (EntryId × String)
deriving DecidableEq

/-- Identity and placeholder id (`prewarm-${crypto.randomUUID()}`) of a
session object freshly created by `prewarmSession`. -/
structure Fresh where
  eid : EntryId
  tempId : String
deriving DecidableEq

/-- `prewarmSession`: on success returns a new object with the placeholder
id, `createdAt`/`lastUsed` at the current clock and `inUse: false`; on
failure (caught exception) returns `null`. -/
def prewarmSession (result : Option Fresh) (now : Nat) : Option (EntryId × PooledSession) :=
  result.map fun f => (f.eid, ⟨f.tempId, now, now, false⟩)

/-- The `for (const [id, pooled] of sessionPool.entries())` scan of
`getSession`: first entry (in insertion order) whose `inUse` is false. -/
def findFree (heap : List (EntryId × PooledSession)) :
    List (String × EntryId) → Option (String × EntryId × PooledSession)
  | [] => none
  | (k, e) :: rest =>
    match mapGet heap e with
    | some d => if d.inUse then findFree heap rest else some (k, e, d)
    | none => findFree heap rest

/-- Mark an entry acquired: `pooled.inUse = true; pooled.lastUsed = Date.now()`. -/
def markInUse (heap : List (EntryId × PooledSession)) (eid : EntryId) (now : Nat) :
    List (EntryId × PooledSession) :=
  mapUpdate heap eid fun d => { d with inUse := true, lastUsed := now }

/-- Fallback half of `getSession`: scan for any free entry; if none, create a
new session on demand and insert it into the pool before returning it.
Note the source does not set `inUse` on the on-demand entry. -/
def getSessionScan (st : PoolState) (now : Nat) (prewarm : Option Fresh) :
    Option EntryId × PoolState :=
  match findFree st.heap st.sessionPool with
  | some (id, eid, _) =>
    (some eid,
     { st with heap := markInUse st.heap eid now,
               sessionKeyMap := mapSet st.sessionKeyMap eid id })
  | none =>
    match prewarmSession prewarm now with
    | some (eid, d) =>
      (some eid,
       { st with heap := mapSet st.heap eid d,
                 sessionPool := mapSet st.sessionPool d.sessionId eid,
                 sessionKeyMap := mapSet st.sessionKeyMap eid d.sessionId })
    | none => (none, st)

/-- `getSession(userSessionId?)`.  The guard `userSessionId &&
sessionPool.has(userSessionId)` treats the empty string as absent (JS
falsiness).  Note this reuse branch does not touch `sessionKeyMap`. -/
def getSession (st : PoolState) (userSessionId : Option String) (now : Nat)
    (prewarm : Option Fresh) : Option EntryId × PoolState :=
  match userSessionId with
  | some uid =>
    if uid ≠ "" then
      match mapGet st.sessionPool uid with
      | some eid =>
        match mapGet st.heap eid with
        | some d =>
          if d.inUse then getSessionScan st now prewarm
          else (some eid, { st with heap := markInUse st.heap eid now })
        | none => getSessionScan st now prewarm
      | none => getSessionScan st now prewarm
    else getSessionScan st now prewarm
  | none => getSessionScan st now prewarm

/-- The guarded map-rekey half of `updateSessionKey`: if `sessionKeyMap`
tracks the object under a (truthy — JS falsiness of the empty string) key
different from the new one, delete the old pool binding, insert the new one
and update `sessionKeyMap`; otherwise leave both maps alone. -/
def rekeyMaps (st : PoolState) (eid : EntryId) (newId : String) : PoolState :=
  match mapGet st.sessionKeyMap eid with
  | some oldKey =>
    if oldKey ≠ "" ∧ oldKey ≠ newId then
      { st with sessionPool := mapSet (mapDelete st.sessionPool oldKey) newId eid,
                sessionKeyMap := mapSet st.sessionKeyMap eid newId }
    else st
  | none => st

/-- `updateSessionKey(session, newSessionId)`: the guarded map re-key,
followed unconditionally by `session.sessionId = newSessionId`. -/
def updateSessionKey (st : PoolState) (eid : EntryId) (newId : String) : PoolState :=
  { rekeyMaps st eid newId with
    heap := mapUpdate (rekeyMaps st eid newId).heap eid fun d => { d with sessionId := newId } }

/-- `releaseSession(session)`: `session.inUse = false; session.lastUsed = Date.now()`. -/
def releaseSession (st : PoolState) (eid : EntryId) (now : Nat) : PoolState :=
  { st with heap := mapUpdate st.heap eid fun d => { d with inUse := false, lastUsed := now } }

/-- The eviction loop of `cleanupSessions`, iterating over the entries of
`sessionPool`.  An entry is closed and removed when `now - lastUsed >
timeout`; if `close()` throws (`closeFails`), the `catch` swallows the error,
the deletions are skipped and the loop continues. -/
def cleanupGo (now tmo : Nat) (closeFails : EntryId → Bool) :
    PoolState → List (String × EntryId) → PoolState
  | st, [] => st
  | st, (id, eid) :: rest =>
    match mapGet st.heap eid with
    | some d =>
      if now - d.lastUsed > tmo then
        if closeFails eid then cleanupGo now tmo closeFails st rest
        else
          cleanupGo now tmo closeFails
            { st with sessionPool := mapDelete st.sessionPool id,
                      sessionKeyMap := mapDelete st.sessionKeyMap eid } rest
      else cleanupGo now tmo closeFails st rest
    | none => cleanupGo now tmo closeFails st rest

/-- `cleanupSessions` (synchronous eviction pass; the subsequent pool top-up
only fires asynchronous `prewarmSession().then(...)` callbacks and mutates no
state synchronously).  `tmo` is the env-configured `SESSION_TIMEOUT`. -/
def cleanupSessions (st : PoolState) (now tmo : Nat) (closeFails : EntryId → Bool) : PoolState :=
  cleanupGo now tmo closeFails st st.sessionPool

/-! ## The WebSocket message handler (stream relay)

The `ws.on("message")` handler of the server: parse the request, send a
`metadata` message, acquire a session, obtain the stream, send the prompt,
drain the stream emitting wire messages, send `complete`; any exception is
caught and reported as an `error` message; the `finally` block releases the
acquired session.  External inputs: whether the prompt is truthy, the
caller-supplied session id, the outcome of on-demand creation, whether
`session.send` throws, and the sequence of events the stream yields
(optionally ending in a thrown error). -/

/-- One content block of an assistant message (`block.type === "text"` vs
anything else). -/
inductive Block where
  | text (s : String)
  | nonText
deriving DecidableEq

/-- One SDK event as the handler discriminates it: a `system`/`init` message
carrying the authoritative `session_id`, an `assistant` message with content
blocks, a terminal `result` message, or any other message type (including
`system` messages of other subtypes), passed through untouched. -/
inductive Event where
  | sysInit (sessionId : String)
  | assistant (content : List Block)
  | result
  | other (msgType : String)
deriving DecidableEq

/-- `msg.type` of an event. -/
def Event.msgType : Event → String
  | .sysInit _ => "system"
  | .assistant _ => "assistant"
  | .result => "result"
  | .other t => t

/-- Wire messages sent with `ws.send(JSON.stringify(...))`. -/
inductive Wire where
  | metadata
  | sessionCreated (claudeSessionId : String)
  | message (messageType : String)
  | textChunk (content : String)
  | complete (response : String) (claudeSessionId : String)
  | errorMsg (message : String)
deriving DecidableEq

/-- The state the drain loop threads: the pool (mutated by
`updateSessionKey`), the `realSessionId` local and the `fullResponse`
accumulator. -/
structure DrainState where
  pool : PoolState
  realSessionId : String
  fullResponse : String
deriving DecidableEq

/-- Texts of the `"text"` blocks of an assistant message, in order. -/
def blockTexts : List Block → List String
  | [] => []
  | Block.text s :: rest => s :: blockTexts rest
  | Block.nonText :: rest => blockTexts rest

/-- The body of the `for await (const msg of stream)` loop for one event:
wire messages it sends, in order, and the updated drain state.  On an init
event the pool is re-keyed and `session_created` is sent before the
passthrough `message`; on an assistant event the passthrough precedes the
`text_chunk` messages. -/
def processEvent (eid : EntryId) (ds : DrainState) : Event → DrainState × List Wire
  | Event.sysInit sid =>
    (⟨updateSessionKey ds.pool eid sid, sid, ds.fullResponse⟩,
     [Wire.sessionCreated sid, Wire.message "system"])
  | Event.assistant blocks =>
    (⟨ds.pool, ds.realSessionId, ds.fullResponse ++ String.join (blockTexts blocks)⟩,
     Wire.message "assistant" :: (blockTexts blocks).map Wire.textChunk)
  | Event.result => (ds, [Wire.message "result"])
  | Event.other t => (ds, [Wire.message t])

/-- The drain loop: process events in order, `break`ing after the first
`result` event. -/
def drainGo (eid : EntryId) : DrainState → List Event → DrainState × List Wire
  | ds, [] => (ds, [])
  | ds, ev :: rest =>
    let r := processEvent eid ds ev
    match ev with
    | Event.result => (r.1, r.2)
    | _ =>
      let r2 := drainGo eid r.1 rest
      (r2.1, r.2 ++ r2.2)

/-- Whether an event is the terminal `result`. -/
def isResultEv : Event → Bool
  | Event.result => true
  | _ => false

/-- Behaviour of the upstream stream: either it yields its events and ends
normally, or it throws after yielding them. -/
inductive StreamSpec where
  | yields (events : List Event)
  | throwsAfter (events : List Event)
deriving DecidableEq

/-- Events the stream yields before ending or throwing. -/
def StreamSpec.events : StreamSpec → List Event
  | .yields evs => evs
  | .throwsAfter evs => evs

/-- Whether the drain reaches the post-loop `complete` send: always when the
stream ends normally; when it throws, only if a `result` event `break`s the
loop before the throw is observed. -/
def StreamSpec.ok : StreamSpec → Bool
  | .yields _ => true
  | .throwsAfter evs => evs.any isResultEv

/-- The parsed client request: whether `prompt` is truthy, and the
`sessionId` field. -/
structure Request where
  hasPrompt : Bool
  sessionId : Option String
deriving DecidableEq

/-- The whole `ws.on("message")` handler body.  Returns the wire messages
sent, in order, the pool state afterwards, and how many times
`releaseSession` ran (the `finally` block).  `exnMsg` is the message of
whichever exception fires on a failing path. -/
def handleMessage (st : PoolState) (req : Request) (now : Nat) (prewarm : Option Fresh)
    (sendFails : Bool) (spec : StreamSpec) (exnMsg : String) :
    List Wire × PoolState × Nat :=
  if !req.hasPrompt then ([Wire.errorMsg "No prompt provided"], st, 0)
  else
    match getSession st req.sessionId now prewarm with
    | (none, st1) => ([Wire.metadata, Wire.errorMsg "Failed to get session"], st1, 0)
    | (some eid, st1) =>
      if sendFails then
        ([Wire.metadata, Wire.errorMsg exnMsg], releaseSession st1 eid now, 1)
      else
        let initId := ((mapGet st1.heap eid).map PooledSession.sessionId).getD ""
        let r := drainGo eid ⟨st1, initId, ""⟩ spec.events
        if spec.ok then
          (Wire.metadata :: r.2 ++ [Wire.complete r.1.fullResponse r.1.realSessionId],
           releaseSession r.1.pool eid now, 1)
        else
          (Wire.metadata :: r.2 ++ [Wire.errorMsg exnMsg],
           releaseSession r.1.pool eid now, 1)

/-- Number of wire messages in a list satisfying a predicate. -/
def countWire (p : Wire → Bool) (l : List Wire) : Nat := (l.filter p).length

/-- Is a wire message `complete`? -/
def isComplete : Wire → Bool
  | Wire.complete _ _ => true
  | _ => false

/-- Is a wire message `error`? -/
def isErrorW : Wire → Bool
  | Wire.errorMsg _ => true
  | _ => false

/-- Is a wire message `session_created`? -/
def isSessionCreatedW : Wire → Bool
  | Wire.sessionCreated _ => true
  | _ => false

/-- Is an event the `system`/`init` event? -/
def isInitEv : Event → Bool
  | Event.sysInit _ => true
  | _ => false

/-- The prefix of the stream the drain loop actually processes: everything
up to and including the first `result` event. -/
def processedEvents : List Event → List Event
  | [] => []
  | ev :: rest => if isResultEv ev then [ev] else ev :: processedEvents rest

/-- A request reaches terminal success when the prompt is present, a session
was acquired, `send` did not throw, and the stream did not throw before the
`result` break. -/
def requestSucceeds (st : PoolState) (req : Request) (now : Nat) (prewarm : Option Fresh)
    (sendFails : Bool) (spec : StreamSpec) : Bool :=
  req.hasPrompt && (getSession st req.sessionId now prewarm).1.isSome
    && !sendFails && spec.ok

/-! ## Association-map lemmas -/

theorem mapGet_mapSet_self {α β : Type} [DecidableEq α] (m : List (α × β)) (k : α) (v : β) :
    mapGet (mapSet m k v) k = some v := by
  induction m with
  | nil => simp [mapSet, mapGet]
  | cons p rest ih =>
    by_cases h : p.1 = k <;> simp [mapSet, mapGet, h, ih]

theorem mapGet_mapSet_ne {α β : Type} [DecidableEq α] (m : List (α × β)) (k k2 : α) (v : β)
    (h : k2 ≠ k) : mapGet (mapSet m k v) k2 = mapGet m k2 := by
  induction m with
  | nil => simp [mapSet, mapGet, Ne.symm h]
  | cons p rest ih =>
    by_cases hp : p.1 = k
    · simp [mapSet, mapGet, hp, Ne.symm h]
    · by_cases hp2 : p.1 = k2 <;> simp [mapSet, mapGet, h, hp, hp2, ih]

theorem mapGet_mapDelete_self {α β : Type} [DecidableEq α] (m : List (α × β)) (k : α) :
    mapGet (mapDelete m k) k = none := by
  induction m with
  | nil => simp [mapDelete, mapGet]
  | cons p rest ih =>
    by_cases h : p.1 = k <;> simp [mapDelete, mapGet, h, ih]

theorem mapGet_mapDelete_ne {α β : Type} [DecidableEq α] (m : List (α × β)) (k k2 : α)
    (h : k2 ≠ k) : mapGet (mapDelete m k) k2 = mapGet m k2 := by
  induction m with
  | nil => simp [mapDelete]
  | cons p rest ih =>
    by_cases hp : p.1 = k
    · simp [mapDelete, mapGet, hp, Ne.symm h, ih]
    · by_cases hp2 : p.1 = k2 <;> simp [mapDelete, mapGet, h, hp, hp2, ih]

theorem mapGet_mapDelete_of_none {α β : Type} [DecidableEq α] (m : List (α × β)) (k k2 : α)
    (h : mapGet m k2 = none) : mapGet (mapDelete m k) k2 = none := by
  by_cases hk : k2 = k
  · simp [hk, mapGet_mapDelete_self]
  · simp [mapGet_mapDelete_ne m k k2 hk, h]

theorem mapGet_mapUpdate_self {α β : Type} [DecidableEq α] (m : List (α × β)) (k : α)
    (f : β → β) : mapGet (mapUpdate m k f) k = (mapGet m k).map f := by
  induction m with
  | nil => simp [mapUpdate, mapGet]
  | cons p rest ih =>
    by_cases h : p.1 = k <;> simp [mapUpdate, mapGet, h, ih]

theorem mapGet_mapUpdate_ne {α β : Type} [DecidableEq α] (m : List (α × β)) (k k2 : α)
    (f : β → β) (h : k2 ≠ k) : mapGet (mapUpdate m k f) k2 = mapGet m k2 := by
  induction m with
  | nil => simp [mapUpdate]
  | cons p rest ih =>
    by_cases hp : p.1 = k
    · simp [mapUpdate, mapGet, hp, Ne.symm h]
    · by_cases hp2 : p.1 = k2 <;> simp [mapUpdate, mapGet, h, hp, hp2, ih]

theorem mapUpdate_mapUpdate {α β : Type} [DecidableEq α] (m : List (α × β)) (k : α)
    (f g : β → β) : mapUpdate (mapUpdate m k f) k g = mapUpdate m k (fun b => g (f b)) := by
  induction m with
  | nil => simp [mapUpdate]
  | cons p rest ih =>
    by_cases h : p.1 = k <;> simp [mapUpdate, h, ih]

theorem mapGet_mem {α β : Type} [DecidableEq α] (m : List (α × β)) (k : α) (v : β)
    (h : mapGet m k = some v) : (k, v) ∈ m := by
  induction m with
  | nil => simp [mapGet] at h
  | cons p rest ih =>
    by_cases hp : p.1 = k
    · simp [mapGet, hp] at h
      rw [← hp, ← h]
      simp
    · simp [mapGet, hp] at h
      exact List.mem_cons_of_mem _ (ih h)

/-! ## Re-key lemmas -/

theorem rekeyMaps_heap (st : PoolState) (eid : EntryId) (k : String) :
    (rekeyMaps st eid k).heap = st.heap := by
  unfold rekeyMaps
  rcases mapGet st.sessionKeyMap eid with _ | oldKey
  · rfl
  · by_cases h : oldKey ≠ "" ∧ oldKey ≠ k <;> simp [h]

theorem updateSessionKey_pool (st : PoolState) (eid : EntryId) (k : String) :
    (updateSessionKey st eid k).sessionPool = (rekeyMaps st eid k).sessionPool := rfl

theorem updateSessionKey_keyMap (st : PoolState) (eid : EntryId) (k : String) :
    (updateSessionKey st eid k).sessionKeyMap = (rekeyMaps st eid k).sessionKeyMap := rfl

theorem updateSessionKey_heap (st : PoolState) (eid : EntryId) (k : String) :
    (updateSessionKey st eid k).heap
      = mapUpdate st.heap eid fun d => { d with sessionId := k } := by
  show mapUpdate (rekeyMaps st eid k).heap eid _ = _
  rw [rekeyMaps_heap]

/-- What `sessionKeyMap` binds the object to after `updateSessionKey`. -/
theorem keyMap_after_update (st : PoolState) (eid : EntryId) (k : String) :
    mapGet (updateSessionKey st eid k).sessionKeyMap eid =
      match mapGet st.sessionKeyMap eid with
      | none => none
      | some ok => if ok ≠ "" ∧ ok ≠ k then some k else some ok := by
  rw [updateSessionKey_keyMap]
  rcases h0 : mapGet st.sessionKeyMap eid with _ | ok
  · simp [rekeyMaps, h0]
  · by_cases hcond : ok ≠ "" ∧ ok ≠ k
    · simp [rekeyMaps, h0, hcond, mapGet_mapSet_self]
    · simp [rekeyMaps, h0, hcond]

/-- The second identical re-key leaves the two maps alone: after the first,
`sessionKeyMap` already binds the object either to `k` or to its unchanged
old key, and in either case the guard fails. -/
theorem rekeyMaps_updateSessionKey (st : PoolState) (eid : EntryId) (k : String) :
    rekeyMaps (updateSessionKey st eid k) eid k = updateSessionKey st eid k := by
  have hafter := keyMap_after_update st eid k
  rcases h0 : mapGet st.sessionKeyMap eid with _ | ok
  · rw [h0] at hafter
    simp [rekeyMaps, hafter]
  · have hafter2 : mapGet (updateSessionKey st eid k).sessionKeyMap eid
        = if ok ≠ "" ∧ ok ≠ k then some k else some ok := by
      rw [keyMap_after_update, h0]
    by_cases hcond : ok ≠ "" ∧ ok ≠ k
    · rw [if_pos hcond] at hafter2
      simp [rekeyMaps, hafter2]
    · rw [if_neg hcond] at hafter2
      simp [rekeyMaps, hafter2, hcond]

theorem updateSessionKey_idem (st : PoolState) (eid : EntryId) (k : String) :
    updateSessionKey (updateSessionKey st eid k) eid k = updateSessionKey st eid k := by
  show ({ rekeyMaps (updateSessionKey st eid k) eid k with
    heap := mapUpdate (rekeyMaps (updateSessionKey st eid k) eid k).heap eid _ } : PoolState) = _
  rw [rekeyMaps_updateSessionKey]
  show ({ updateSessionKey st eid k with heap := _ } : PoolState) = updateSessionKey st eid k
  have hh : mapUpdate (updateSessionKey st eid k).heap eid
      (fun d => { d with sessionId := k }) = (updateSessionKey st eid k).heap := by
    rw [updateSessionKey_heap, mapUpdate_mapUpdate]
  rw [hh]

/-! ## Claim theorems: pool operations -/

/-- C1: the claim fails on the on-demand creation path of `getSession`.  On
an empty pool, `getSession` creates, inserts and returns an entry whose
`inUse` flag is still false (the source never sets it on this path), and a
second `getSession` hands out the same entry while the first request still
holds it — two concurrently-live acquisitions of one entry. -/
theorem getSession_onDemand_unmarked :
    (getSession ⟨[], [], []⟩ none 5 (some ⟨0, "tmp"⟩)).1 = some 0 ∧
    (mapGet (getSession ⟨[], [], []⟩ none 5 (some ⟨0, "tmp"⟩)).2.heap 0).map PooledSession.inUse
      = some false ∧
    (getSession (getSession ⟨[], [], []⟩ none 5 (some ⟨0, "tmp"⟩)).2 none 6 none).1 = some 0 := by
  decide

/-- C2: the claim fails because `cleanupSessions` never checks `inUse`: an
entry whose `lastUsed` is older than the threshold is closed and removed
from both maps even while `inUse` is true. -/
theorem cleanupSessions_removes_inUse_entry :
    (mapGet (⟨[(0, ⟨"s", 0, 0, true⟩)], [("s", 0)], [(0, "s")]⟩ : PoolState).heap 0).map
        PooledSession.inUse = some true ∧
    (cleanupSessions ⟨[(0, ⟨"s", 0, 0, true⟩)], [("s", 0)], [(0, "s")]⟩ 1500001 1500000
        (fun _ => false)).sessionPool = [] ∧
    (cleanupSessions ⟨[(0, ⟨"s", 0, 0, true⟩)], [("s", 0)], [(0, "s")]⟩ 1500001 1500000
        (fun _ => false)).sessionKeyMap = [] := by
  decide

/-- C6: `updateSessionKey` moves the entry from its tracked key to the new
key in one step (new key bound, old key unbound, all other keys untouched,
`sessionKeyMap` updated), is a no-op on the maps when the new key already
equals the tracked key, always stores the new key in the entry, and a second
identical re-key leaves the state exactly as after the first. -/
theorem updateSessionKey_moves_and_idempotent (st : PoolState) (eid : EntryId) (k : String) :
    (∀ oldKey, mapGet st.sessionKeyMap eid = some oldKey → oldKey ≠ "" → oldKey ≠ k →
      mapGet (updateSessionKey st eid k).sessionPool k = some eid ∧
      mapGet (updateSessionKey st eid k).sessionPool oldKey = none ∧
      (∀ k2, k2 ≠ k → k2 ≠ oldKey →
        mapGet (updateSessionKey st eid k).sessionPool k2 = mapGet st.sessionPool k2) ∧
      mapGet (updateSessionKey st eid k).sessionKeyMap eid = some k) ∧
    (mapGet st.sessionKeyMap eid = some k →
      (updateSessionKey st eid k).sessionPool = st.sessionPool ∧
      (updateSessionKey st eid k).sessionKeyMap = st.sessionKeyMap) ∧
    (∀ d, mapGet st.heap eid = some d →
      mapGet (updateSessionKey st eid k).heap eid = some { d with sessionId := k }) ∧
    updateSessionKey (updateSessionKey st eid k) eid k = updateSessionKey st eid k := by
  refine ⟨?_, ?_, ?_, updateSessionKey_idem st eid k⟩
  · intro oldKey hok h1 h2
    have hpool : (updateSessionKey st eid k).sessionPool
        = mapSet (mapDelete st.sessionPool oldKey) k eid := by
      rw [updateSessionKey_pool]
      simp [rekeyMaps, hok, h1, h2]
    have hkm : (updateSessionKey st eid k).sessionKeyMap
        = mapSet st.sessionKeyMap eid k := by
      rw [updateSessionKey_keyMap]
      simp [rekeyMaps, hok, h1, h2]
    refine ⟨?_, ?_, ?_, ?_⟩
    · rw [hpool]
      exact mapGet_mapSet_self _ _ _
    · rw [hpool, mapGet_mapSet_ne _ _ _ _ h2, mapGet_mapDelete_self]
    · intro k2 hk2 hk2o
      rw [hpool, mapGet_mapSet_ne _ _ _ _ hk2, mapGet_mapDelete_ne _ _ _ hk2o]
    · rw [hkm]
      exact mapGet_mapSet_self _ _ _
  · intro hok
    have hre : rekeyMaps st eid k = st := by
      simp [rekeyMaps, hok]
    exact ⟨by rw [updateSessionKey_pool, hre], by rw [updateSessionKey_keyMap, hre]⟩
  · intro d hd
    rw [updateSessionKey_heap, mapGet_mapUpdate_self, hd]
    rfl

/-- Witness for the C6 theorem at a concrete one-entry pool. -/
theorem updateSessionKey_moves_and_idempotent_witness :
    mapGet (updateSessionKey ⟨[(0, ⟨"a", 0, 0, false⟩)], [("a", 0)], [(0, "a")]⟩ 0
        "b").sessionPool "b" = some 0 ∧
    mapGet (updateSessionKey ⟨[(0, ⟨"a", 0, 0, false⟩)], [("a", 0)], [(0, "a")]⟩ 0
        "b").sessionPool "a" = none ∧
    mapGet (updateSessionKey ⟨[(0, ⟨"a", 0, 0, false⟩)], [("a", 0)], [(0, "a")]⟩ 0
        "b").sessionKeyMap 0 = some "b" ∧
    mapGet (updateSessionKey ⟨[(0, ⟨"a", 0, 0, false⟩)], [("a", 0)], [(0, "a")]⟩ 0
        "b").heap 0 = some ⟨"b", 0, 0, false⟩ := by
  have h := updateSessionKey_moves_and_idempotent
    ⟨[(0, ⟨"a", 0, 0, false⟩)], [("a", 0)], [(0, "a")]⟩ 0 "b"
  have hm := h.1 "a" rfl (by decide) (by decide)
  exact ⟨hm.1, hm.2.1, hm.2.2.2, h.2.2.1 ⟨"a", 0, 0, false⟩ rfl⟩

/-- C7 counterexample: the claim fails for an entry the pool scan has never
handed out.  Entries inserted by the startup warmup or the cleanup top-up are
added to `sessionPool` without a `sessionKeyMap` binding; on such an entry
`updateSessionKey` finds no old key and leaves both maps untouched, so the
immediate acquire of the new key misses it and scan-returns the first free
entry instead.  Here entry 1 is free, is re-keyed to `"k"`, yet
`getSession("k")` returns entry 0: the new key is not even bound in the pool
mapping. -/
theorem rekey_untracked_then_acquire_differs :
    (mapGet (⟨[(0, ⟨"a", 0, 0, false⟩), (1, ⟨"b", 0, 0, false⟩)],
        [("a", 0), ("b", 1)], []⟩ : PoolState).heap 1).map PooledSession.inUse = some false ∧
    mapGet (updateSessionKey ⟨[(0, ⟨"a", 0, 0, false⟩), (1, ⟨"b", 0, 0, false⟩)],
        [("a", 0), ("b", 1)], []⟩ 1 "k").sessionPool "k" = none ∧
    (getSession (updateSessionKey ⟨[(0, ⟨"a", 0, 0, false⟩), (1, ⟨"b", 0, 0, false⟩)],
        [("a", 0), ("b", 1)], []⟩ 1 "k") (some "k") 3 none).1 = some 0 ∧
    some 0 ≠ (some 1 : Option EntryId) := by
  decide

/-- C7 amended: after re-keying a free entry to `k`, acquiring with preferred
key `k` returns exactly that entry, provided the entry is tracked in
`sessionKeyMap` under a truthy current key (as every entry previously handed
out by the pool scan is), with the pool consistently binding that key when it
already equals `k`; for untracked entries the counterexample shows the claim
fails. -/
theorem rekey_then_acquire (st : PoolState) (eid : EntryId) (k k0 : String) (d : PooledSession)
    (now : Nat) (prewarm : Option Fresh)
    (htrack : mapGet st.sessionKeyMap eid = some k0)
    (hk0 : k0 ≠ "")
    (hk : k ≠ "")
    (hcons : k0 = k → mapGet st.sessionPool k = some eid)
    (hd : mapGet st.heap eid = some d)
    (hfree : d.inUse = false) :
    (getSession (updateSessionKey st eid k) (some k) now prewarm).1 = some eid := by
  have hpool : mapGet (updateSessionKey st eid k).sessionPool k = some eid := by
    by_cases hkk : k0 = k
    · have hre : rekeyMaps st eid k = st := by
        simp [rekeyMaps, htrack, hkk]
      rw [updateSessionKey_pool, hre]
      exact hcons hkk
    · have hre : (rekeyMaps st eid k).sessionPool
          = mapSet (mapDelete st.sessionPool k0) k eid := by
        simp [rekeyMaps, htrack, hk0, hkk]
      rw [updateSessionKey_pool, hre]
      exact mapGet_mapSet_self _ _ _
  have hheap : mapGet (updateSessionKey st eid k).heap eid = some { d with sessionId := k } := by
    rw [updateSessionKey_heap, mapGet_mapUpdate_self, hd]
    rfl
  simp [getSession, hk, hpool, hheap, hfree]

/-- Witness for the C7 theorem at a concrete one-entry pool. -/
theorem rekey_then_acquire_witness :
    (getSession (updateSessionKey ⟨[(0, ⟨"a", 0, 0, false⟩)], [("a", 0)], [(0, "a")]⟩ 0 "b")
      (some "b") 3 none).1 = some 0 :=
  rekey_then_acquire ⟨[(0, ⟨"a", 0, 0, false⟩)], [("a", 0)], [(0, "a")]⟩ 0 "b" "a"
    ⟨"a", 0, 0, false⟩ 3 none rfl (by decide) (by decide)
    (fun h => absurd h (by decide)) rfl rfl

/-- C9 counterexample: releasing twice with the clock advanced between the
calls does not equal releasing once — the second call refreshes `lastUsed`. -/
theorem releaseSession_double_differs :
    releaseSession (releaseSession ⟨[(0, ⟨"s", 3, 3, true⟩)], [("s", 0)], [(0, "s")]⟩ 0 5) 0 9
      ≠ releaseSession ⟨[(0, ⟨"s", 3, 3, true⟩)], [("s", 0)], [(0, "s")]⟩ 0 5 := by
  decide

/-- C9 amended: a double release equals a single release at the time of the
second call (hence at a fixed clock reading release is exactly idempotent);
release never touches the pool mapping or the key map; and releasing an
entry only clears `inUse` and refreshes `lastUsed`. -/
theorem releaseSession_absorb (st : PoolState) (eid : EntryId) (t1 t2 : Nat) :
    releaseSession (releaseSession st eid t1) eid t2 = releaseSession st eid t2 ∧
    releaseSession (releaseSession st eid t1) eid t1 = releaseSession st eid t1 ∧
    (releaseSession st eid t1).sessionPool = st.sessionPool ∧
    (releaseSession st eid t1).sessionKeyMap = st.sessionKeyMap ∧
    ∀ d, mapGet st.heap eid = some d →
      mapGet (releaseSession st eid t1).heap eid
        = some { d with inUse := false, lastUsed := t1 } := by
  have habs : ∀ s1 s2 : Nat,
      releaseSession (releaseSession st eid s1) eid s2 = releaseSession st eid s2 := by
    intro s1 s2
    show ({ releaseSession st eid s1 with
      heap := mapUpdate (releaseSession st eid s1).heap eid _ } : PoolState) = _
    show ({ st with heap := mapUpdate (mapUpdate st.heap eid _) eid _ } : PoolState) = _
    rw [mapUpdate_mapUpdate]
    rfl
  refine ⟨habs t1 t2, habs t1 t1, rfl, rfl, ?_⟩
  intro d hd
  show mapGet (mapUpdate st.heap eid _) eid = _
  rw [mapGet_mapUpdate_self, hd]
  rfl

/-- Witness for the C9 amended theorem at a concrete one-entry pool. -/
theorem releaseSession_absorb_witness :
    mapGet (releaseSession ⟨[(0, ⟨"s", 3, 3, true⟩)], [("s", 0)], [(0, "s")]⟩ 0 5).heap 0
      = some ⟨"s", 3, 5, false⟩ :=
  (releaseSession_absorb ⟨[(0, ⟨"s", 3, 3, true⟩)], [("s", 0)], [(0, "s")]⟩ 0 5 9).2.2.2.2
    ⟨"s", 3, 3, true⟩ rfl

/-- C4 counterexample: the full wire output of a request whose caller-supplied
key `"abc"` equals the authoritative key `"abc"` carried by the init event —
`session_created` is still emitted, although claim C4 requires it only when
the keys differ. -/
theorem session_created_emitted_when_keys_equal :
    (handleMessage ⟨[(0, ⟨"abc", 0, 0, false⟩)], [("abc", 0)], [(0, "abc")]⟩ ⟨true, some "abc"⟩
        0 none false (StreamSpec.yields [Event.sysInit "abc", Event.result]) "e").1
      = [Wire.metadata, Wire.sessionCreated "abc", Wire.message "system",
         Wire.message "result", Wire.complete "" "abc"] := by
  decide

/-! ## Lemmas about the free-entry scan and the eviction loop -/

theorem findFree_eq_none (heap : List (EntryId × PooledSession)) (l : List (String × EntryId))
    (h : ∀ p ∈ l, ∀ d, mapGet heap p.2 = some d → d.inUse = true) :
    findFree heap l = none := by
  induction l with
  | nil => rfl
  | cons p rest ih =>
    rcases p with ⟨k, e⟩
    rcases hm : mapGet heap e with _ | d
    · simp [findFree, hm]
      exact ih fun q hq => h q (List.mem_cons_of_mem _ hq)
    · have hbusy := h (k, e) (List.mem_cons_self _ _) d hm
      simp [findFree, hm, hbusy]
      exact ih fun q hq => h q (List.mem_cons_of_mem _ hq)

theorem cleanupGo_pool_none (now tmo : Nat) (f : EntryId → Bool) (k : String) :
    ∀ (l : List (String × EntryId)) (st : PoolState), mapGet st.sessionPool k = none →
      mapGet (cleanupGo now tmo f st l).sessionPool k = none := by
  intro l
  induction l with
  | nil => intro st h; exact h
  | cons p rest ih =>
    intro st h
    rcases p with ⟨id, eid⟩
    rcases hm : mapGet st.heap eid with _ | d
    · simp [cleanupGo, hm]
      exact ih st h
    · by_cases hstale : now - d.lastUsed > tmo
      · by_cases hfail : f eid = true
        · simp [cleanupGo, hm, hstale, hfail]
          exact ih st h
        · simp [cleanupGo, hm, hstale, hfail]
          exact ih _ (mapGet_mapDelete_of_none _ _ _ h)
      · simp [cleanupGo, hm, hstale]
        exact ih st h

theorem cleanupGo_pool_keeps_failed (now tmo : Nat) (f : EntryId → Bool) (id : String)
    (eid : EntryId) (hf : f eid = true) :
    ∀ (l : List (String × EntryId)) (st : PoolState),
      (∀ p ∈ l, p.1 = id → p.2 = eid) →
      mapGet st.sessionPool id = some eid →
      mapGet (cleanupGo now tmo f st l).sessionPool id = some eid := by
  intro l
  induction l with
  | nil => intro st _ hp; exact hp
  | cons p rest ih =>
    intro st hall hp
    rcases p with ⟨id2, eid2⟩
    have hall2 : ∀ q ∈ rest, q.1 = id → q.2 = eid :=
      fun q hq => hall q (List.mem_cons_of_mem _ hq)
    rcases hm : mapGet st.heap eid2 with _ | d
    · simp [cleanupGo, hm]
      exact ih st hall2 hp
    · by_cases hstale : now - d.lastUsed > tmo
      · by_cases hfail : f eid2 = true
        · simp [cleanupGo, hm, hstale, hfail]
          exact ih st hall2 hp
        · by_cases hid : id2 = id
          · have heq2 : eid2 = eid := hall (id2, eid2) (List.mem_cons_self _ _) hid
            exact absurd (by rw [heq2]; exact hf) hfail
          · simp [cleanupGo, hm, hstale, hfail]
            refine ih _ hall2 ?_
            rw [mapGet_mapDelete_ne _ _ _ fun e => hid e.symm]
            exact hp
      · simp [cleanupGo, hm, hstale]
        exact ih st hall2 hp

theorem cleanupGo_keyMap_keeps_failed (now tmo : Nat) (f : EntryId → Bool)
    (eid : EntryId) (k : String) (hf : f eid = true) :
    ∀ (l : List (String × EntryId)) (st : PoolState),
      mapGet st.sessionKeyMap eid = some k →
      mapGet (cleanupGo now tmo f st l).sessionKeyMap eid = some k := by
  intro l
  induction l with
  | nil => intro st hk; exact hk
  | cons p rest ih =>
    intro st hk
    rcases p with ⟨id2, eid2⟩
    rcases hm : mapGet st.heap eid2 with _ | d
    · simp [cleanupGo, hm]
      exact ih st hk
    · by_cases hstale : now - d.lastUsed > tmo
      · by_cases hfail : f eid2 = true
        · simp [cleanupGo, hm, hstale, hfail]
          exact ih st hk
        · have hne : eid2 ≠ eid := fun e => hfail (e ▸ hf)
          simp [cleanupGo, hm, hstale, hfail]
          refine ih _ ?_
          rw [mapGet_mapDelete_ne _ _ _ fun e => hne e.symm]
          exact hk
      · simp [cleanupGo, hm, hstale]
        exact ih st hk

theorem cleanupGo_removes_stale (now tmo : Nat) (f : EntryId → Bool) (id2 : String)
    (eid2 : EntryId) (d2 : PooledSession) (hstale2 : now - d2.lastUsed > tmo)
    (hf2 : f eid2 = false) :
    ∀ (l : List (String × EntryId)) (st : PoolState), (id2, eid2) ∈ l →
      mapGet st.heap eid2 = some d2 →
      mapGet (cleanupGo now tmo f st l).sessionPool id2 = none := by
  intro l
  induction l with
  | nil => intro st hmem; exact absurd hmem (List.not_mem_nil _)
  | cons p rest ih =>
    intro st hmem hd
    rcases p with ⟨id3, eid3⟩
    rcases List.mem_cons.mp hmem with heq | hmem2
    · injection heq with h1 h2
      subst h1
      subst h2
      simp [cleanupGo, hd, hstale2, hf2]
      exact cleanupGo_pool_none now tmo f id2 rest _ (mapGet_mapDelete_self _ _)
    · rcases hm : mapGet st.heap eid3 with _ | d
      · simp [cleanupGo, hm]
        exact ih st hmem2 hd
      · by_cases hstale : now - d.lastUsed > tmo
        · by_cases hfail : f eid3 = true
          · simp [cleanupGo, hm, hstale, hfail]
            exact ih st hmem2 hd
          · simp [cleanupGo, hm, hstale, hfail]
            exact ih _ hmem2 hd
        · simp [cleanupGo, hm, hstale]
          exact ih st hmem2 hd

/-! ## Claim theorems: creation fallback and eviction error handling -/

/-- C8: when every pooled entry is busy, `getSession` never fails for lack of
capacity: with a successful creation it returns the fresh entry, already
inserted into the pool mapping under its placeholder key, and it returns
`null` exactly when creation itself failed. -/
theorem getSession_no_capacity_failure (st : PoolState) (uid : Option String) (now : Nat)
    (prewarm : Option Fresh)
    (hbusy : ∀ p ∈ st.sessionPool, ∀ d, mapGet st.heap p.2 = some d → d.inUse = true) :
    (∀ f, prewarm = some f →
      (getSession st uid now prewarm).1 = some f.eid ∧
      mapGet (getSession st uid now prewarm).2.sessionPool f.tempId = some f.eid) ∧
    (prewarm = none → (getSession st uid now prewarm).1 = none) := by
  have hget : getSession st uid now prewarm = getSessionScan st now prewarm := by
    rcases uid with _ | u
    · rfl
    · by_cases hu : u ≠ ""
      · rcases hp : mapGet st.sessionPool u with _ | eid
        · simp [getSession, hu, hp]
        · rcases hh : mapGet st.heap eid with _ | d
          · simp [getSession, hu, hp, hh]
          · have hb : d.inUse = true := hbusy (u, eid) (mapGet_mem _ _ _ hp) d hh
            simp [getSession, hu, hp, hh, hb]
      · simp [getSession, hu]
  have hff := findFree_eq_none st.heap st.sessionPool hbusy
  constructor
  · intro f hf
    subst hf
    rw [hget]
    constructor
    · simp [getSessionScan, hff, prewarmSession]
    · simp [getSessionScan, hff, prewarmSession, mapGet_mapSet_self]
  · intro hf
    subst hf
    rw [hget]
    simp [getSessionScan, hff, prewarmSession]

/-- Witness for the C8 theorem: one busy entry, successful creation. -/
theorem getSession_no_capacity_failure_witness :
    (getSession ⟨[(0, ⟨"a", 0, 0, true⟩)], [("a", 0)], [(0, "a")]⟩ (some "a") 3
        (some ⟨1, "t"⟩)).1 = some 1 ∧
    mapGet (getSession ⟨[(0, ⟨"a", 0, 0, true⟩)], [("a", 0)], [(0, "a")]⟩ (some "a") 3
        (some ⟨1, "t"⟩)).2.sessionPool "t" = some 1 :=
  (getSession_no_capacity_failure ⟨[(0, ⟨"a", 0, 0, true⟩)], [("a", 0)], [(0, "a")]⟩
      (some "a") 3 (some ⟨1, "t"⟩) (by
        intro p hp d hd
        have hp2 : p = ("a", 0) := by simpa using hp
        subst hp2
        simp [mapGet] at hd
        simp [← hd])).1 ⟨1, "t"⟩ rfl

/-- C10: if `close()` throws for an entry during the eviction scan, that
entry keeps its pool binding and its key-map binding, while the scan still
removes every other stale entry whose `close()` succeeds. -/
theorem cleanup_close_failure_keeps_entry (st : PoolState) (now tmo : Nat)
    (closeFails : EntryId → Bool) (id : String) (eid : EntryId) (k : String)
    (hall : ∀ p ∈ st.sessionPool, p.1 = id → p.2 = eid)
    (hf : closeFails eid = true)
    (hp : mapGet st.sessionPool id = some eid)
    (hk : mapGet st.sessionKeyMap eid = some k) :
    mapGet (cleanupSessions st now tmo closeFails).sessionPool id = some eid ∧
    mapGet (cleanupSessions st now tmo closeFails).sessionKeyMap eid = some k ∧
    ∀ id2 eid2 d2, (id2, eid2) ∈ st.sessionPool → mapGet st.heap eid2 = some d2 →
      now - d2.lastUsed > tmo → closeFails eid2 = false →
      mapGet (cleanupSessions st now tmo closeFails).sessionPool id2 = none := by
  refine ⟨?_, ?_, ?_⟩
  · exact cleanupGo_pool_keeps_failed now tmo closeFails id eid hf st.sessionPool st hall hp
  · exact cleanupGo_keyMap_keeps_failed now tmo closeFails eid k hf st.sessionPool st hk
  · intro id2 eid2 d2 hmem hd hstale hfok
    exact cleanupGo_removes_stale now tmo closeFails id2 eid2 d2 hstale hfok
      st.sessionPool st hmem hd

/-- Witness for the C10 theorem: two stale free entries, the first one's
`close()` throws, the second one's succeeds. -/
theorem cleanup_close_failure_keeps_entry_witness :
    mapGet (cleanupSessions ⟨[(0, ⟨"a", 0, 0, false⟩), (1, ⟨"b", 0, 0, false⟩)],
        [("a", 0), ("b", 1)], [(0, "a"), (1, "b")]⟩ 200 100
        (fun e => e == 0)).sessionPool "a" = some 0 ∧
    mapGet (cleanupSessions ⟨[(0, ⟨"a", 0, 0, false⟩), (1, ⟨"b", 0, 0, false⟩)],
        [("a", 0), ("b", 1)], [(0, "a"), (1, "b")]⟩ 200 100
        (fun e => e == 0)).sessionKeyMap 0 = some "a" ∧
    mapGet (cleanupSessions ⟨[(0, ⟨"a", 0, 0, false⟩), (1, ⟨"b", 0, 0, false⟩)],
        [("a", 0), ("b", 1)], [(0, "a"), (1, "b")]⟩ 200 100
        (fun e => e == 0)).sessionPool "b" = none := by
  have h := cleanup_close_failure_keeps_entry
    ⟨[(0, ⟨"a", 0, 0, false⟩), (1, ⟨"b", 0, 0, false⟩)],
      [("a", 0), ("b", 1)], [(0, "a"), (1, "b")]⟩ 200 100 (fun e => e == 0) "a" 0 "a"
    (by decide) rfl rfl rfl
  exact ⟨h.1, h.2.1, h.2.2 "b" 1 ⟨"b", 0, 0, false⟩ (by decide) rfl (by decide) rfl⟩

/-! ## Wire-message counting lemmas for the relay -/

/-- Number of `system`/`init` events in a list. -/
def countInits (evs : List Event) : Nat := (evs.filter isInitEv).length

theorem countWire_nil (p : Wire → Bool) : countWire p [] = 0 := rfl

theorem countWire_cons (p : Wire → Bool) (x : Wire) (l : List Wire) :
    countWire p (x :: l) = (if p x then 1 else 0) + countWire p l := by
  by_cases h : p x <;> simp [countWire, List.filter_cons, h, Nat.add_comm]

theorem countWire_append (p : Wire → Bool) (a b : List Wire) :
    countWire p (a ++ b) = countWire p a + countWire p b := by
  simp [countWire, List.filter_append]

theorem countWire_singleton (p : Wire → Bool) (x : Wire) :
    countWire p [x] = if p x then 1 else 0 := by
  by_cases h : p x <;> simp [countWire, List.filter_cons, h]

theorem countInits_cons (ev : Event) (l : List Event) :
    countInits (ev :: l) = (if isInitEv ev then 1 else 0) + countInits l := by
  by_cases h : isInitEv ev <;> simp [countInits, List.filter_cons, h, Nat.add_comm]

theorem countWire_map_textChunk (p : Wire → Bool) (h : ∀ s, p (Wire.textChunk s) = false)
    (ts : List String) : countWire p (ts.map Wire.textChunk) = 0 := by
  induction ts with
  | nil => rfl
  | cons t rest ih =>
    rw [List.map_cons, countWire_cons, h, ih]
    simp

/-- The drain loop itself never emits a wire message of a kind other than
`session_created`, `message` and `text_chunk`. -/
theorem drainGo_count_zero (p : Wire → Bool) (hsc : ∀ s, p (Wire.sessionCreated s) = false)
    (hm : ∀ t, p (Wire.message t) = false) (htc : ∀ s, p (Wire.textChunk s) = false)
    (eid : EntryId) :
    ∀ (evs : List Event) (ds : DrainState), countWire p (drainGo eid ds evs).2 = 0 := by
  intro evs
  induction evs with
  | nil => intro ds; rfl
  | cons ev rest ih =>
    intro ds
    cases ev with
    | sysInit sid =>
      show countWire p ([Wire.sessionCreated sid, Wire.message "system"]
        ++ (drainGo eid _ rest).2) = 0
      rw [countWire_append, countWire_cons, countWire_singleton, hsc, hm, ih]
      simp
    | assistant blocks =>
      show countWire p ((Wire.message "assistant"
        :: (blockTexts blocks).map Wire.textChunk) ++ (drainGo eid _ rest).2) = 0
      rw [countWire_append, countWire_cons, hm, countWire_map_textChunk p htc, ih]
      simp
    | result =>
      show countWire p [Wire.message "result"] = 0
      rw [countWire_singleton, hm]
      simp
    | other t =>
      show countWire p ([Wire.message t] ++ (drainGo eid _ rest).2) = 0
      rw [countWire_append, countWire_singleton, hm, ih]
      simp

/-- The drain loop emits one `session_created` per processed init event. -/
theorem drainGo_sessionCreated_count (eid : EntryId) :
    ∀ (evs : List Event) (ds : DrainState),
      countWire isSessionCreatedW (drainGo eid ds evs).2 = countInits (processedEvents evs) := by
  intro evs
  induction evs with
  | nil => intro ds; rfl
  | cons ev rest ih =>
    intro ds
    cases ev with
    | sysInit sid =>
      show countWire isSessionCreatedW ([Wire.sessionCreated sid, Wire.message "system"]
        ++ (drainGo eid _ rest).2) = countInits (processedEvents (Event.sysInit sid :: rest))
      rw [countWire_append, countWire_cons, countWire_singleton, ih]
      show 1 + 0 + countInits (processedEvents rest)
        = countInits (processedEvents (Event.sysInit sid :: rest))
      show _ = countInits (Event.sysInit sid :: processedEvents rest)
      rw [countInits_cons]
      show 1 + 0 + _ = 1 + _
      omega
    | assistant blocks =>
      show countWire isSessionCreatedW ((Wire.message "assistant"
        :: (blockTexts blocks).map Wire.textChunk) ++ (drainGo eid _ rest).2)
        = countInits (processedEvents (Event.assistant blocks :: rest))
      rw [countWire_append, countWire_cons,
        countWire_map_textChunk isSessionCreatedW (fun s => rfl), ih]
      show 0 + 0 + countInits (processedEvents rest)
        = countInits (Event.assistant blocks :: processedEvents rest)
      rw [countInits_cons]
      show 0 + 0 + _ = 0 + _
      omega
    | result =>
      show countWire isSessionCreatedW [Wire.message "result"]
        = countInits (processedEvents (Event.result :: rest))
      rw [countWire_singleton]
      rfl
    | other t =>
      show countWire isSessionCreatedW ([Wire.message t] ++ (drainGo eid _ rest).2)
        = countInits (processedEvents (Event.other t :: rest))
      rw [countWire_append, countWire_singleton, ih]
      show 0 + countInits (processedEvents rest)
        = countInits (Event.other t :: processedEvents rest)
      rw [countInits_cons]
      show 0 + _ = 0 + _
      rfl

/-! ## Claim theorems: the relay -/

/-- C3: the `finally` block releases the acquired entry exactly once on every
exit path — success, stream failure, send failure — and zero times exactly
when no entry was acquired (missing prompt, or acquisition returned null). -/
theorem relay_releases_exactly_once (st : PoolState) (req : Request) (now : Nat)
    (prewarm : Option Fresh) (sendFails : Bool) (spec : StreamSpec) (exnMsg : String) :
    (handleMessage st req now prewarm sendFails spec exnMsg).2.2 =
      if req.hasPrompt = true ∧ (getSession st req.sessionId now prewarm).1.isSome = true
      then 1 else 0 := by
  unfold handleMessage
  cases hq : req.hasPrompt with
  | false => simp [hq]
  | true =>
    rcases hg : getSession st req.sessionId now prewarm with ⟨res, st1⟩
    rcases res with _ | eid
    · simp [hq, hg]
    · cases sendFails with
      | true => simp [hq, hg]
      | false => by_cases hok : spec.ok <;> simp [hq, hg, hok]

/-- C4 amended: during a drain, `session_created` is emitted exactly once per
processed init event (hence exactly once when the stream carries one init
event), and it is emitted immediately: on an init event the loop first
re-keys the pool, then sends `session_created`, then the event's own
passthrough `message`, and only then the messages of the remaining events.
It is emitted unconditionally — the counterexample shows it is sent even
when the authoritative key equals the caller-supplied key. -/
theorem session_created_once_per_init (eid : EntryId) (ds : DrainState) (evs : List Event)
    (sid : String) (rest : List Event) :
    countWire isSessionCreatedW (drainGo eid ds evs).2 = countInits (processedEvents evs) ∧
    drainGo eid ds (Event.sysInit sid :: rest) =
      ((drainGo eid ⟨updateSessionKey ds.pool eid sid, sid, ds.fullResponse⟩ rest).1,
       Wire.sessionCreated sid :: Wire.message "system" ::
         (drainGo eid ⟨updateSessionKey ds.pool eid sid, sid, ds.fullResponse⟩ rest).2) :=
  ⟨drainGo_sessionCreated_count eid evs ds, by simp [drainGo, processEvent]⟩

/-- C5: `complete` is emitted exactly once when the request reaches terminal
success and never otherwise; `error` is emitted exactly once on every
failure path and never on success — so at most once, and never followed by
a `complete` of the same request. -/
theorem complete_error_terminal (st : PoolState) (req : Request) (now : Nat)
    (prewarm : Option Fresh) (sendFails : Bool) (spec : StreamSpec) (exnMsg : String) :
    countWire isComplete (handleMessage st req now prewarm sendFails spec exnMsg).1
      = (if requestSucceeds st req now prewarm sendFails spec then 1 else 0) ∧
    countWire isErrorW (handleMessage st req now prewarm sendFails spec exnMsg).1
      = (if requestSucceeds st req now prewarm sendFails spec then 0 else 1) := by
  have hzc := drainGo_count_zero isComplete (fun s => rfl) (fun t => rfl) (fun s => rfl)
  have hze := drainGo_count_zero isErrorW (fun s => rfl) (fun t => rfl) (fun s => rfl)
  unfold handleMessage requestSucceeds
  cases hq : req.hasPrompt with
  | false => simp [hq, countWire_cons, countWire_nil, isComplete, isErrorW]
  | true =>
    rcases hg : getSession st req.sessionId now prewarm with ⟨res, st1⟩
    rcases res with _ | eid
    · simp [hq, hg, countWire_cons, countWire_nil, isComplete, isErrorW]
    · cases sendFails with
      | true => simp [hq, hg, countWire_cons, countWire_nil, isComplete, isErrorW]
      | false =>
        by_cases hok : spec.ok
        · simp [hq, hg, hok, countWire_cons, countWire_append, countWire_singleton,
            countWire_nil, isComplete, isErrorW, hzc eid, hze eid]
        · simp [hq, hg, hok, countWire_cons, countWire_append, countWire_singleton,
            countWire_nil, isComplete, isErrorW, hzc eid, hze eid]

end AgentPool
